import Mathlib

/-!
A shallow embedding of `inky-piwigo.py`.

The script is single-threaded and synchronous, so we model it as explicit
state passing.  The state `St` records everything the script persists or
observes on disk (the pickled cookie file `pwg_cookie`, the append-only
`history.txt` log, the `img/` cache directory) together with two counters of
outgoing network requests (all requests, and image downloads specifically).
The environment `Env` fixes the responses of the external Piwigo HTTP
service for one run.  Fallible operations return the post state together
with an `Except String` result: an `Except.error` models a raised Python
exception, and the state it is paired with records the on-disk side effects
that happened before the raise.
-/

namespace InkyPiwigo

/-- The nine size variants of `IMG_SIZES`. -/
def IMG_SIZES : List String :=
  ["square", "thumb", "xsmall", "small", "medium", "large", "xlarge", "xxlarge", "2small"]

/-- Responses of the external HTTP service and display during one run.
`statusUsername` is the username field of the `pwg.session.getStatus`
response as a function of the session cookie sent; `tagQueryUrls` is the
list of derivative URLs extracted from the `pwg.tags.getImages` response;
`fetchOk` is whether an image GET returns at all (a network-level failure
raises); `fetchStatus`/`fetchBody` are the status code and body of the
image GET for each URL; `renderOk` is whether opening and displaying the
image succeeds. -/
structure Env where
  loginStatus : Nat
  loginCookie : Nat
  statusUsername : Nat → String
  tagStatus : Nat
  tagQueryUrls : List String
  fetchOk : Bool
  fetchStatus : String → Nat
  fetchBody : String → List Nat
  renderOk : Bool

/-- On-disk state of the working directory, plus network-call counters.
`credFile` is the contents of `pwg_cookie` (`none` = file absent),
`history` the whitespace tokens of `history.txt` (`none` = file absent),
`cache` the `img/` directory as an association list from filename to
bytes. `netCalls` counts every HTTP request made; `fetchCalls` counts only
image-download GETs. -/
structure St where
  credFile : Option Nat
  history : Option (List String)
  cache : List (String × List Nat)
  netCalls : Nat
  fetchCalls : Nat
  deriving Repr, DecidableEq

/-- Command-line arguments relevant to the modelled behaviour. -/
structure Args where
  username : String
  recent_filter : Int
  deriving Repr, DecidableEq

/-- Python `str.split("/")`: split a character list at every `'/'`.
Always returns at least one (possibly empty) piece, and keeps empty
pieces, exactly as Python does for a one-character separator. -/
def splitSlash : List Char → List (List Char)
  | [] => [[]]
  | c :: rest =>
    match splitSlash rest with
    | [] => [[]]
    | hd :: tl => if c = '/' then [] :: hd :: tl else (c :: hd) :: tl

/-- `url.split("/")[-1]`: the cache filename derived from a URL. -/
def fnameOf (url : String) : String :=
  String.mk ((splitSlash url.toList).getLastD [])

/-- `Path("img").joinpath(fname)`: the cache path of a URL. -/
def pathOf (url : String) : String :=
  "img/" ++ fnameOf url

/-- `PiwigoSession.logOn`: POST the login request (one network call); raise
unless the status is 200, otherwise pickle the session cookie to
`pwg_cookie`, overwriting any previous contents. -/
def logOn (env : Env) (st : St) : St × Except String Unit :=
  if env.loginStatus ≠ 200 then
    ({ st with netCalls := st.netCalls + 1 }, .error "couldn't logon")
  else
    ({ st with netCalls := st.netCalls + 1, credFile := some env.loginCookie },
      .ok ())

/-- `PiwigoSession.cookies`: if `pwg_cookie` does not exist, first `logOn`;
then read the cookie back from the file. -/
def cookies (env : Env) (st : St) : St × Except String Nat :=
  match st.credFile with
  | some c => (st, .ok c)
  | none =>
    match logOn env st with
    | (st', .error e) => (st', .error e)
    | (st', .ok _) => (st', .ok (st'.credFile.getD 0))

/-- `PiwigoSession.loggedOn`: evaluate `self.cookies` (which may itself log
on), then POST a `pwg.session.getStatus` probe (one network call) and
compare the reported username with the configured one. -/
def loggedOn (env : Env) (username : String) (st : St) : St × Except String Bool :=
  match cookies env st with
  | (st', .error e) => (st', .error e)
  | (st', .ok c) =>
    ({ st' with netCalls := st'.netCalls + 1 },
      .ok (env.statusUsername c == username))

/-- `PiwigoSession.tagUrls`: evaluate `self.cookies`, then GET the tag
query (one network call); on status 200 return the extracted derivative
URLs, otherwise raise. -/
def tagUrls (env : Env) (st : St) : St × Except String (List String) :=
  match cookies env st with
  | (st', .error e) => (st', .error e)
  | (st', .ok _) =>
    if env.tagStatus == 200 then
      ({ st' with netCalls := st'.netCalls + 1 }, .ok env.tagQueryUrls)
    else
      ({ st' with netCalls := st'.netCalls + 1 }, .error "couldn't fetch image urls")

/-- `PiwigoSession.download_url`: if `img/<fname>` already exists, return
its path with no further action; otherwise evaluate `self.cookies`, GET
the URL (counted in both `netCalls` and `fetchCalls`), and write the
response body to the cache file verbatim — the HTTP status of the response
is never inspected. `env.fetchOk = false` models the GET itself raising a
network error before any bytes are written. -/
def download_url (env : Env) (st : St) (url : String) : St × Except String String :=
  if (st.cache.lookup (fnameOf url)).isSome then
    (st, .ok (pathOf url))
  else
    match cookies env st with
    | (st', .error e) => (st', .error e)
    | (st', .ok _) =>
      if env.fetchOk then
        ({ st' with
            netCalls := st'.netCalls + 1,
            fetchCalls := st'.fetchCalls + 1,
            cache := st'.cache ++ [(fnameOf url, env.fetchBody url)] },
          .ok (pathOf url))
      else
        ({ st' with netCalls := st'.netCalls + 1, fetchCalls := st'.fetchCalls + 1 },
          .error "connection error")

/-- Lines 164–167: `Path("history.txt").read_text().split()[-limit:]`, with
a missing file caught and replaced by `[]`.  Python slicing makes
`[-0:]` the whole list, so `limit = 0` keeps every token. -/
def loadRecent (historyFile : Option (List String)) (limit : Nat) : List String :=
  match historyFile with
  | none => []
  | some toks => if limit = 0 then toks else toks.drop (toks.length - limit)

/-- Lines 172–174: append `f"{url}\n"` to `history.txt`, creating the file
if absent. -/
def recordShown (historyFile : Option (List String)) (url : String) : Option (List String) :=
  some (historyFile.getD [] ++ [url])

/-- Line 168: `set(urls) - set(recent)` as a duplicate-free list. -/
def notRecentList (urls recent : List String) : List String :=
  urls.dedup.filter (fun u => decide (u ∉ recent))

/-- Line 169: `not_recent_urls if not_recent_urls else urls`. -/
def candidateList (urls recent : List String) : List String :=
  if notRecentList urls recent = [] then urls else notRecentList urls recent

/-- `random.choice`: raises `IndexError` on an empty sequence, otherwise
returns the element at the drawn index.  The draw is modelled by the
arbitrary index `k`, reduced mod the length. -/
def randomChoice (l : List String) (k : Nat) : Except String String :=
  if h : l = [] then .error "Cannot choose from an empty sequence"
  else .ok (l.get ⟨k % l.length, Nat.mod_lt k (List.length_pos.mpr h)⟩)

/-- Lines 168–170: the selector. -/
def select (urls recent : List String) (k : Nat) : Except String String :=
  randomChoice (candidateList urls recent) k

/-- Lines 156–157: `if not session.loggedOn: session.logOn()`. -/
def loginPhase (env : Env) (username : String) (st : St) : St × Except String Unit :=
  match loggedOn env username st with
  | (st₁, .error e) => (st₁, .error e)
  | (st₁, .ok b) => if b then (st₁, .ok ()) else logOn env st₁

/-- Lines 147–189: the `__main__` block after argument parsing.  Validate
`recent_filter`; ensure a session; fetch the tag URLs; read the recency
window; select a URL; append it to the history log; download it; render
it.  `k` models the random draw. -/
def mainRun (env : Env) (args : Args) (k : Nat) (st : St) : St × Except String Unit :=
  if args.recent_filter < 0 then
    (st, .error "--recent_filter must be positive")
  else
    match loginPhase env args.username st with
    | (st₂, .error e) => (st₂, .error e)
    | (st₂, .ok _) =>
      match tagUrls env st₂ with
      | (st₃, .error e) => (st₃, .error e)
      | (st₃, .ok urls) =>
        match select urls (loadRecent st₃.history args.recent_filter.toNat) k with
        | .error e => (st₃, .error e)
        | .ok url =>
          match download_url env { st₃ with history := recordShown st₃.history url } url with
          | (st₄, .error e) => (st₄, .error e)
          | (st₄, .ok _) =>
            if env.renderOk then (st₄, .ok ()) else (st₄, .error "render failed")

/-- A run environment in which every external interaction succeeds. -/
def envStd : Env :=
  { loginStatus := 200
    loginCookie := 7
    statusUsername := fun _ => "alice"
    tagStatus := 200
    tagQueryUrls := ["s/a.jpg", "s/b.jpg"]
    fetchOk := true
    fetchStatus := fun _ => 200
    fetchBody := fun _ => [1, 2, 3]
    renderOk := true }

/-- `envStd` except that the image GET returns HTTP 404. -/
def env404 : Env := { envStd with fetchStatus := fun _ => 404 }

/-- `envStd` except that the image GET raises a network error. -/
def envNoNet : Env := { envStd with fetchOk := false }

/-- A starting state with a valid credential file and empty history/cache. -/
def st0 : St :=
  { credFile := some 7, history := none, cache := [], netCalls := 0, fetchCalls := 0 }

/-- `st0` with the credential file absent. -/
def stNoCred : St := { st0 with credFile := none }

/-- Standard arguments. -/
def argsStd : Args := { username := "alice", recent_filter := 25 }

/-- Arguments with a negative recency window. -/
def argsNeg : Args := { argsStd with recent_filter := -1 }

/-! ## Helper lemmas -/

theorem lookup_append_of_none {β : Type} (a : String) (l₁ l₂ : List (String × β))
    (h : l₁.lookup a = none) : (l₁ ++ l₂).lookup a = l₂.lookup a := by
  induction l₁ with
  | nil => rfl
  | cons hd tl ih =>
    obtain ⟨k, b⟩ := hd
    rw [List.cons_append]
    simp only [List.lookup] at h ⊢
    cases hk : a == k
    · simp only [hk] at h ⊢
      exact ih h
    · simp only [hk] at h
      exact absurd h (Option.some_ne_none b)

theorem lookup_singleton_self {β : Type} (a : String) (b : β) :
    List.lookup a [(a, b)] = some b := by
  simp [List.lookup]

theorem logOn_keeps (env : Env) (st : St) :
    (logOn env st).1.history = st.history ∧ (logOn env st).1.cache = st.cache ∧
      (logOn env st).1.fetchCalls = st.fetchCalls := by
  unfold logOn
  split <;> exact ⟨rfl, rfl, rfl⟩

theorem cookies_keeps (env : Env) (st : St) :
    (cookies env st).1.history = st.history ∧ (cookies env st).1.cache = st.cache ∧
      (cookies env st).1.fetchCalls = st.fetchCalls := by
  unfold cookies
  split
  · exact ⟨rfl, rfl, rfl⟩
  · split
    next st' e heq =>
      have h := logOn_keeps env st
      rw [heq] at h
      exact h
    next st' c heq =>
      have h := logOn_keeps env st
      rw [heq] at h
      exact h

theorem loggedOn_keeps (env : Env) (u : String) (st : St) :
    (loggedOn env u st).1.history = st.history ∧ (loggedOn env u st).1.cache = st.cache ∧
      (loggedOn env u st).1.fetchCalls = st.fetchCalls := by
  unfold loggedOn
  split
  next st' e heq =>
    have h := cookies_keeps env st
    rw [heq] at h
    exact h
  next st' c heq =>
    have h := cookies_keeps env st
    rw [heq] at h
    exact h

theorem loginPhase_keeps (env : Env) (u : String) (st : St) :
    (loginPhase env u st).1.history = st.history ∧ (loginPhase env u st).1.cache = st.cache ∧
      (loginPhase env u st).1.fetchCalls = st.fetchCalls := by
  unfold loginPhase
  split
  next st₁ e heq =>
    have h := loggedOn_keeps env u st
    rw [heq] at h
    exact h
  next st₁ b heq =>
    have h := loggedOn_keeps env u st
    rw [heq] at h
    split
    · exact h
    · have h2 := logOn_keeps env st₁
      exact ⟨h2.1.trans h.1, h2.2.1.trans h.2.1, h2.2.2.trans h.2.2⟩

theorem tagUrls_keeps (env : Env) (st : St) :
    (tagUrls env st).1.history = st.history ∧ (tagUrls env st).1.cache = st.cache ∧
      (tagUrls env st).1.fetchCalls = st.fetchCalls := by
  unfold tagUrls
  split
  next st' e heq =>
    have h := cookies_keeps env st
    rw [heq] at h
    exact h
  next st' c heq =>
    have h := cookies_keeps env st
    rw [heq] at h
    split <;> exact h

theorem download_url_keepsHistory (env : Env) (st : St) (url : String) :
    (download_url env st url).1.history = st.history := by
  unfold download_url
  split
  · rfl
  · split
    next st' e heq =>
      have h := cookies_keeps env st
      rw [heq] at h
      exact h.1
    next st' c heq =>
      have h := cookies_keeps env st
      rw [heq] at h
      split <;> exact h.1

theorem download_url_effects (env : Env) (st : St) (url : String) :
    (download_url env st url).1.history = st.history ∧
    ((download_url env st url).1.cache = st.cache ∨
      (download_url env st url).1.cache = st.cache ++ [(fnameOf url, env.fetchBody url)]) ∧
    (download_url env st url).1.fetchCalls ≤ st.fetchCalls + 1 := by
  unfold download_url
  split
  · exact ⟨rfl, Or.inl rfl, Nat.le_succ _⟩
  · split
    next st' e heq =>
      have h := cookies_keeps env st
      rw [heq] at h
      exact ⟨h.1, Or.inl h.2.1, h.2.2.le.trans (Nat.le_succ _)⟩
    next st' c heq =>
      have h := cookies_keeps env st
      rw [heq] at h
      split
      · refine ⟨h.1, Or.inr ?_, ?_⟩
        · show st'.cache ++ [(fnameOf url, env.fetchBody url)]
            = st.cache ++ [(fnameOf url, env.fetchBody url)]
          rw [h.2.1]
        · show st'.fetchCalls + 1 ≤ st.fetchCalls + 1
          rw [h.2.2]
      · refine ⟨h.1, Or.inl h.2.1, ?_⟩
        show st'.fetchCalls + 1 ≤ st.fetchCalls + 1
        rw [h.2.2]

theorem download_url_hit (env : Env) (st : St) (url : String)
    (h : (st.cache.lookup (fnameOf url)).isSome = true) :
    download_url env st url = (st, .ok (pathOf url)) := by
  unfold download_url
  rw [if_pos h]

theorem download_url_miss (env : Env) (st : St) (url : String) (c : Nat)
    (hc : st.credFile = some c) (hok : env.fetchOk = true)
    (habs : st.cache.lookup (fnameOf url) = none) :
    download_url env st url =
      ({ st with netCalls := st.netCalls + 1, fetchCalls := st.fetchCalls + 1,
                 cache := st.cache ++ [(fnameOf url, env.fetchBody url)] },
        .ok (pathOf url)) := by
  unfold download_url cookies
  simp [habs, hc, hok]

theorem mem_candidateList {urls recent : List String} {u : String}
    (h : u ∈ candidateList urls recent) : u ∈ urls := by
  unfold candidateList at h
  split at h
  · exact h
  · unfold notRecentList at h
    exact List.mem_dedup.mp (List.mem_filter.mp h).1

theorem candidateList_of_ne {urls recent : List String}
    (h : notRecentList urls recent ≠ []) :
    candidateList urls recent = notRecentList urls recent := by
  unfold candidateList
  rw [if_neg h]

/-! ## Claims -/

/-- C1: for every non-empty candidate URL list the selector returns an
element of it; whenever the set difference `candidates - recent` is
non-empty the result lies in that difference (otherwise it lies in the full
candidate list); on an empty candidate list selection fails with an
error. -/
theorem select_spec (urls recent : List String) (k : Nat) :
    (urls = [] → select urls recent k = .error "Cannot choose from an empty sequence") ∧
    (urls ≠ [] → ∃ u, select urls recent k = .ok u ∧ u ∈ urls ∧
      (notRecentList urls recent ≠ [] → u ∈ notRecentList urls recent)) := by
  constructor
  · intro h
    subst h
    have hnr : notRecentList [] recent = [] := by simp [notRecentList]
    simp [select, candidateList, hnr, randomChoice]
  · intro h
    have hpool : candidateList urls recent ≠ [] := by
      unfold candidateList
      split
      · exact h
      · assumption
    unfold select randomChoice
    rw [dif_neg hpool]
    refine ⟨_, rfl, ?_, ?_⟩
    · exact mem_candidateList (List.get_mem _ _ _)
    · intro hne
      rw [← candidateList_of_ne hne]
      exact List.get_mem _ _ _

/-- C1 witness: concrete instances of both branches of `select_spec`. -/
theorem select_spec_witness :
    select [] ["x"] 0 = .error "Cannot choose from an empty sequence" ∧
    (∃ u, select ["a", "b"] ["a"] 0 = .ok u ∧ u ∈ (["a", "b"] : List String) ∧
      (notRecentList ["a", "b"] ["a"] ≠ [] → u ∈ notRecentList ["a", "b"] ["a"])) :=
  ⟨(select_spec [] ["x"] 0).1 rfl, (select_spec ["a", "b"] ["a"] 0).2 (by decide)⟩

/-- C2: the recency window at `limit = 0`.  Python's slice `[-0:]` is the
whole list, so with `recent_filter = 0` every previously shown URL is
still excluded from selection — contrary to the spec and to the flag's
own help text. -/
theorem loadRecent_zero_keeps_all :
    loadRecent (some ["u1", "u2"]) 0 = ["u1", "u2"] ∧
    notRecentList ["u1", "u2", "u3"] (loadRecent (some ["u1", "u2"]) 0) = ["u3"] := by
  exact ⟨rfl, by decide⟩

/-- C3 counterexample: starting with no credential file, the `loggedOn`
probe writes a credential file (via the lazy `cookies → logOn` path) and
performs two network calls, refuting "no side effect on persisted state
and exactly one network call" for every starting state. -/
theorem loggedOn_counterexample :
    stNoCred.credFile = none ∧
    (loggedOn envStd "alice" stNoCred).1.credFile = some 7 ∧
    (loggedOn envStd "alice" stNoCred).1.netCalls = stNoCred.netCalls + 2 :=
  ⟨rfl, rfl, rfl⟩

/-- C3 (amended): when the credential file exists, `loggedOn` performs
exactly one network call, leaves the whole persisted state unchanged, and
reports whether the session's username matches the configured one. -/
theorem loggedOn_frame (env : Env) (u : String) (st : St) (c : Nat)
    (h : st.credFile = some c) :
    loggedOn env u st =
      ({ st with netCalls := st.netCalls + 1 }, .ok (env.statusUsername c == u)) := by
  unfold loggedOn cookies
  simp [h]

/-- C3 witness: the amended frame property at a concrete state. -/
theorem loggedOn_frame_witness :
    st0.credFile = some 7 ∧
    loggedOn envStd "alice" st0 =
      ({ st0 with netCalls := st0.netCalls + 1 },
        .ok (envStd.statusUsername 7 == "alice")) :=
  ⟨rfl, loggedOn_frame envStd "alice" st0 7 rfl⟩

/-- C4 counterexample: with the image GET returning HTTP 404, the download
still succeeds and the response body is written to the cache — the code
never inspects the status, refuting "fails with a DownloadError and writes
no cache file". -/
theorem download_url_counterexample :
    env404.fetchStatus "s/a.jpg" = 404 ∧
    (download_url env404 st0 "s/a.jpg").2 = .ok "img/a.jpg" ∧
    (download_url env404 st0 "s/a.jpg").1.cache = [("a.jpg", [1, 2, 3])] :=
  ⟨rfl, rfl, rfl⟩

/-- C4 (amended): `download_url` never inspects the HTTP status.  For any
environment (hence any status), a URL whose cache file is absent and whose
GET returns is written to the cache verbatim and its path returned; no
error is raised. -/
theorem download_url_ignores_status (env : Env) (st : St) (url : String) (c : Nat)
    (hc : st.credFile = some c) (hok : env.fetchOk = true)
    (habs : st.cache.lookup (fnameOf url) = none) :
    download_url env st url =
      ({ st with netCalls := st.netCalls + 1, fetchCalls := st.fetchCalls + 1,
                 cache := st.cache ++ [(fnameOf url, env.fetchBody url)] },
        .ok (pathOf url)) :=
  download_url_miss env st url c hc hok habs

/-- C4 witness: the amended no-status-check property at a concrete input
whose status is 404. -/
theorem download_url_ignores_status_witness :
    st0.credFile = some 7 ∧ env404.fetchOk = true ∧
    st0.cache.lookup (fnameOf "s/a.jpg") = none ∧
    download_url env404 st0 "s/a.jpg" =
      ({ st0 with netCalls := st0.netCalls + 1, fetchCalls := st0.fetchCalls + 1,
                  cache := st0.cache ++ [(fnameOf "s/a.jpg", env404.fetchBody "s/a.jpg")] },
        .ok (pathOf "s/a.jpg")) :=
  ⟨rfl, rfl, rfl, download_url_ignores_status env404 st0 "s/a.jpg" 7 rfl rfl rfl⟩

/-- C7: a missing history file is treated as "no history yet": the recency
window is empty and no error is raised, whatever the limit. -/
theorem loadRecent_missing_file (limit : Nat) : loadRecent none limit = [] := rfl

/-- C8: a negative `recent_filter` aborts the run before anything else:
the returned state is the input state, so no network call (and no other
side effect) has happened. -/
theorem recent_filter_validated_first (env : Env) (args : Args) (k : Nat) (st : St)
    (h : args.recent_filter < 0) :
    mainRun env args k st = (st, .error "--recent_filter must be positive") ∧
    (mainRun env args k st).1.netCalls = st.netCalls := by
  unfold mainRun
  rw [if_pos h]
  exact ⟨rfl, rfl⟩

/-- C8 witness: `recent_filter = -1` at a concrete run. -/
theorem recent_filter_validated_first_witness :
    argsNeg.recent_filter < 0 ∧
    mainRun envStd argsNeg 0 st0 = (st0, .error "--recent_filter must be positive") ∧
    (mainRun envStd argsNeg 0 st0).1.netCalls = st0.netCalls := by
  exact ⟨by decide, (recent_filter_validated_first envStd argsNeg 0 st0 (by decide)).1,
    (recent_filter_validated_first envStd argsNeg 0 st0 (by decide)).2⟩

/-- C5: a URL whose cache file already exists is returned from the cache
with no network access at all (state unchanged); consequently downloading
the same URL twice performs exactly one image fetch, in the first call. -/
theorem download_url_cached_once (env : Env) (st : St) (url : String) (c : Nat)
    (hc : st.credFile = some c) (hok : env.fetchOk = true)
    (habs : st.cache.lookup (fnameOf url) = none) :
    (∀ st₂ : St, (st₂.cache.lookup (fnameOf url)).isSome = true →
        download_url env st₂ url = (st₂, .ok (pathOf url))) ∧
    ∃ st₁, download_url env st url = (st₁, .ok (pathOf url)) ∧
      st₁.fetchCalls = st.fetchCalls + 1 ∧ st₁.netCalls = st.netCalls + 1 ∧
      download_url env st₁ url = (st₁, .ok (pathOf url)) := by
  refine ⟨fun st₂ h2 => download_url_hit env st₂ url h2, ?_⟩
  refine ⟨_, download_url_miss env st url c hc hok habs, rfl, rfl, ?_⟩
  apply download_url_hit
  have hl : (st.cache ++ [(fnameOf url, env.fetchBody url)]).lookup (fnameOf url)
      = some (env.fetchBody url) := by
    rw [lookup_append_of_none _ _ _ habs, lookup_singleton_self]
  simp [hl]

/-- C5 witness: two downloads of the same URL from an empty cache. -/
theorem download_url_cached_once_witness :
    st0.credFile = some 7 ∧ envStd.fetchOk = true ∧
    st0.cache.lookup (fnameOf "s/a.jpg") = none ∧
    ∃ st₁, download_url envStd st0 "s/a.jpg" = (st₁, .ok (pathOf "s/a.jpg")) ∧
      st₁.fetchCalls = st0.fetchCalls + 1 ∧ st₁.netCalls = st0.netCalls + 1 ∧
      download_url envStd st₁ "s/a.jpg" = (st₁, .ok (pathOf "s/a.jpg")) :=
  ⟨rfl, rfl, rfl, (download_url_cached_once envStd st0 "s/a.jpg" 7 rfl rfl rfl).2⟩

/-- C9: the cache is keyed only by the URL's final path segment: after
downloading `url₁`, downloading a different `url₂` with the same final
segment returns the path of the file written for `url₁`, with no further
fetch and no state change. -/
theorem download_url_shared_segment (env : Env) (st : St) (url₁ url₂ : String) (c : Nat)
    (hne : url₁ ≠ url₂) (hseg : fnameOf url₁ = fnameOf url₂)
    (hc : st.credFile = some c) (hok : env.fetchOk = true)
    (habs : st.cache.lookup (fnameOf url₁) = none) :
    ∃ st₁, download_url env st url₁ = (st₁, .ok (pathOf url₁)) ∧
      download_url env st₁ url₂ = (st₁, .ok (pathOf url₁)) ∧
      st₁.fetchCalls = st.fetchCalls + 1 := by
  refine ⟨_, download_url_miss env st url₁ c hc hok habs, ?_, rfl⟩
  have hpath : pathOf url₂ = pathOf url₁ := by
    unfold pathOf
    rw [hseg]
  have hl : (st.cache ++ [(fnameOf url₁, env.fetchBody url₁)]).lookup (fnameOf url₂)
      = some (env.fetchBody url₁) := by
    rw [← hseg, lookup_append_of_none _ _ _ habs, lookup_singleton_self]
  have h2 := download_url_hit env
    ({ st with netCalls := st.netCalls + 1, fetchCalls := st.fetchCalls + 1,
               cache := st.cache ++ [(fnameOf url₁, env.fetchBody url₁)] })
    url₂ (by simp [hl])
  rw [hpath] at h2
  exact h2

/-- C9 witness: two URLs differing only in the host share a cache file. -/
theorem download_url_shared_segment_witness :
    ("a/x.jpg" : String) ≠ "b/x.jpg" ∧ fnameOf "a/x.jpg" = fnameOf "b/x.jpg" ∧
    ∃ st₁, download_url envStd st0 "a/x.jpg" = (st₁, .ok (pathOf "a/x.jpg")) ∧
      download_url envStd st₁ "b/x.jpg" = (st₁, .ok (pathOf "a/x.jpg")) ∧
      st₁.fetchCalls = st0.fetchCalls + 1 :=
  ⟨by decide, rfl,
    download_url_shared_segment envStd st0 "a/x.jpg" "b/x.jpg" 7 (by decide) rfl rfl rfl rfl⟩

/-- Every run either fails before a URL is selected — leaving the history
log, the image cache and the fetch counter untouched — or appends exactly
the selected URL `u` to the history log, and then the only cache file the
run may write is the one derived from that same `u`, with at most one
image fetch. -/
theorem mainRun_cases (env : Env) (args : Args) (k : Nat) (st : St) :
    ((mainRun env args k st).1.history = st.history ∧
      (mainRun env args k st).1.cache = st.cache ∧
      (mainRun env args k st).1.fetchCalls = st.fetchCalls ∧
      (mainRun env args k st).2 ≠ .ok ()) ∨
    (∃ u, (mainRun env args k st).1.history = some (st.history.getD [] ++ [u]) ∧
      ((mainRun env args k st).1.cache = st.cache ∨
        (mainRun env args k st).1.cache = st.cache ++ [(fnameOf u, env.fetchBody u)]) ∧
      (mainRun env args k st).1.fetchCalls ≤ st.fetchCalls + 1) := by
  unfold mainRun
  split
  · exact Or.inl ⟨rfl, rfl, rfl, by simp⟩
  · split
    next st₂ e heq =>
      have h := loginPhase_keeps env args.username st
      rw [heq] at h
      exact Or.inl ⟨h.1, h.2.1, h.2.2, by simp⟩
    next st₂ u2 heq =>
      have h2 := loginPhase_keeps env args.username st
      rw [heq] at h2
      split
      next st₃ e heq3 =>
        have h3 := tagUrls_keeps env st₂
        rw [heq3] at h3
        exact Or.inl ⟨h3.1.trans h2.1, h3.2.1.trans h2.2.1, h3.2.2.trans h2.2.2, by simp⟩
      next st₃ urls heq3 =>
        have h3 := tagUrls_keeps env st₂
        rw [heq3] at h3
        have hh : st₃.history = st.history := h3.1.trans h2.1
        have hc3 : st₃.cache = st.cache := h3.2.1.trans h2.2.1
        have hf3 : st₃.fetchCalls = st.fetchCalls := h3.2.2.trans h2.2.2
        split
        next e heqs =>
          exact Or.inl ⟨hh, hc3, hf3, by simp⟩
        next url heqs =>
          have h4 := download_url_effects env
            { st₃ with history := recordShown st₃.history url } url
          split
          next st₄ e heq4 =>
            rw [heq4] at h4
            have h4' : st₄.history = recordShown st₃.history url := h4.1
            have h4c : st₄.cache = st₃.cache ∨
                st₄.cache = st₃.cache ++ [(fnameOf url, env.fetchBody url)] := h4.2.1
            have h4f : st₄.fetchCalls ≤ st₃.fetchCalls + 1 := h4.2.2
            rw [hc3] at h4c
            rw [hf3] at h4f
            refine Or.inr ⟨url, ?_, h4c, h4f⟩
            show st₄.history = some (st.history.getD [] ++ [url])
            rw [h4']
            simp [recordShown, hh]
          next st₄ fn heq4 =>
            rw [heq4] at h4
            have h4' : st₄.history = recordShown st₃.history url := h4.1
            have h4c : st₄.cache = st₃.cache ∨
                st₄.cache = st₃.cache ++ [(fnameOf url, env.fetchBody url)] := h4.2.1
            have h4f : st₄.fetchCalls ≤ st₃.fetchCalls + 1 := h4.2.2
            rw [hc3] at h4c
            rw [hf3] at h4f
            have hrec : st₄.history = some (st.history.getD [] ++ [url]) := by
              rw [h4']
              simp [recordShown, hh]
            split
            · exact Or.inr ⟨url, hrec, h4c, h4f⟩
            · exact Or.inr ⟨url, hrec, h4c, h4f⟩

/-- C6: every successful run appends exactly one line — the selected URL —
to the history log, and `recordShown` is append-only: N calls grow the log
by exactly the N recorded URLs, in order. -/
theorem history_append_once :
    (∀ (env : Env) (args : Args) (k : Nat) (st st' : St),
        mainRun env args k st = (st', .ok ()) →
        ∃ u, st'.history = some (st.history.getD [] ++ [u])) ∧
    (∀ (l urls : List String),
        List.foldl recordShown (some l) urls = some (l ++ urls)) := by
  constructor
  · intro env args k st st' h
    rcases mainRun_cases env args k st with hL | hR
    · exact absurd (by rw [h]) hL.2.2.2
    · obtain ⟨u, hu, -, -⟩ := hR
      rw [h] at hu
      exact ⟨u, hu⟩
  · intro l urls
    induction urls generalizing l with
    | nil => simp
    | cons hd tl ih =>
      simp only [List.foldl, recordShown, Option.getD_some]
      rw [ih (l ++ [hd])]
      simp

/-- C6 witness: a concrete successful run appends one URL, and three
record operations append three lines in order. -/
theorem history_append_once_witness :
    (∃ u, (mainRun envStd argsStd 0 st0).1.history = some (st0.history.getD [] ++ [u])) ∧
    List.foldl recordShown (some ["x"]) ["y", "z"] = some ["x", "y", "z"] :=
  ⟨history_append_once.1 envStd argsStd 0 st0 (mainRun envStd argsStd 0 st0).1 rfl,
    history_append_once.2 ["x"] ["y", "z"]⟩

/-- C10: the selected URL is appended to the history log before the
download is attempted: every run either fails before selection — having
fetched nothing and changed neither the log nor the cache — or has already
recorded the selected URL `u`, whatever happens to the download or the
rendering afterwards; and in the latter case the only cache file the run
may have written is the one derived from that same recorded `u`, with at
most one image fetch.  So the program never downloads (writes a cache
file for) or renders an image whose URL is not already in the log. -/
theorem selected_recorded_before_download (env : Env) (args : Args) (k : Nat)
    (st st' : St) (r : Except String Unit) (h : mainRun env args k st = (st', r)) :
    (st'.history = st.history ∧ st'.cache = st.cache ∧ st'.fetchCalls = st.fetchCalls) ∨
    (∃ u, st'.history = some (st.history.getD [] ++ [u]) ∧
      (st'.cache = st.cache ∨ st'.cache = st.cache ++ [(fnameOf u, env.fetchBody u)]) ∧
      st'.fetchCalls ≤ st.fetchCalls + 1) := by
  rcases mainRun_cases env args k st with hL | hR
  · rw [h] at hL
    exact Or.inl ⟨hL.1, hL.2.1, hL.2.2.1⟩
  · obtain ⟨u, hu, hc, hf⟩ := hR
    rw [h] at hu hc hf
    exact Or.inr ⟨u, hu, hc, hf⟩

/-- C10 witness: a concrete run in which the download raises a network
error; the theorem still applies (and the selected URL is in the log). -/
theorem selected_recorded_witness :
    ((mainRun envNoNet argsStd 0 st0).1.history = st0.history ∧
      (mainRun envNoNet argsStd 0 st0).1.cache = st0.cache ∧
      (mainRun envNoNet argsStd 0 st0).1.fetchCalls = st0.fetchCalls) ∨
    (∃ u, (mainRun envNoNet argsStd 0 st0).1.history = some (st0.history.getD [] ++ [u]) ∧
      ((mainRun envNoNet argsStd 0 st0).1.cache = st0.cache ∨
        (mainRun envNoNet argsStd 0 st0).1.cache
          = st0.cache ++ [(fnameOf u, envNoNet.fetchBody u)]) ∧
      (mainRun envNoNet argsStd 0 st0).1.fetchCalls ≤ st0.fetchCalls + 1) :=
  selected_recorded_before_download envNoNet argsStd 0 st0
    (mainRun envNoNet argsStd 0 st0).1 (mainRun envNoNet argsStd 0 st0).2 rfl

end InkyPiwigo
